/-
Verification of the AvA Kintsugi generation pipeline.

Shallow embedding of src/ava/services/context_manager.py and
src/ava/services/generation_coordinator.py.

Conventions:
- Python strings are `List Char` (abbrev `Str`).
- Python dicts are association lists with insertion-order semantics:
  overwriting a key keeps its position, new keys are appended (CPython 3.7+).
- The mutable-in-place GenerationSessionRecord is modelled with an explicit
  heap (`SessionHeap`): a context holds an index (`sessionRef`) into the heap,
  so in-place mutation and reference sharing are observable.
- Exceptions are modelled with `Except Unit`; external collaborators
  (symbol indexer, model client, dependency planner, python `hash`) are
  oracle parameters collected in `Services`.  An oracle returning `none` /
  `.error` models the external call raising.
- Python float arithmetic in the relevance score is modelled with `ℚ`
  (the exact real-number formula the code computes).
-/
import Mathlib

set_option maxHeartbeats 1000000

abbrev Str := List Char

/-- Python `str` whitespace (the set stripped by `str.strip()` / split by `str.split()`). -/
def pyIsSpace (c : Char) : Bool :=
  c = ' ' || c = '\t' || c = '\n' || c = '\r' || c = '\x0b' || c = '\x0c'

/-- Python `str.strip()`. -/
def strip (l : Str) : Str :=
  ((l.dropWhile pyIsSpace).reverse.dropWhile pyIsSpace).reverse

def strStartsWith : Str → Str → Bool
  | [], _ => true
  | _ :: _, [] => false
  | a :: p, b :: l => decide (a = b) && strStartsWith p l

def strEndsWith (s l : Str) : Bool := strStartsWith s.reverse l.reverse

/-- Python `p in l` substring test. -/
def isSubstr (p : Str) : Str → Bool
  | [] => strStartsWith p []
  | c :: t => strStartsWith p (c :: t) || isSubstr p t

/-- Split at the first occurrence of `pat`: returns (before, after) or `none`. -/
def splitOnFirst (pat : Str) : Str → Option (Str × Str)
  | [] => if strStartsWith pat [] then some ([], []) else none
  | c :: t =>
    if strStartsWith pat (c :: t) then some ([], (c :: t).drop pat.length)
    else (splitOnFirst pat t).map (fun pr => (c :: pr.1, pr.2))

def replaceAllAux (pat rep : Str) : Nat → Str → Str
  | _, [] => []
  | 0, l => l
  | fuel + 1, c :: t =>
    if strStartsWith pat (c :: t) && !pat.isEmpty then
      rep ++ replaceAllAux pat rep fuel ((c :: t).drop pat.length)
    else
      c :: replaceAllAux pat rep fuel t

/-- Python `str.replace(pat, rep)`: replace every non-overlapping occurrence,
left to right.  (All call sites in the source use a non-empty `pat`.) -/
def replaceAll (pat rep l : Str) : Str := replaceAllAux pat rep l.length l

def wordsOfAux : Str → Str → List Str
  | [], cur => if cur.isEmpty then [] else [cur.reverse]
  | c :: t, cur =>
    if pyIsSpace c then
      if cur.isEmpty then wordsOfAux t [] else cur.reverse :: wordsOfAux t []
    else wordsOfAux t (c :: cur)

/-- Python `str.split()` without arguments: maximal non-whitespace runs. -/
def wordsOf (l : Str) : List Str := wordsOfAux l []

def splitOnSepAux (sep : Str) : Nat → Str → Str → List Str
  | 0, l, cur => [cur.reverse ++ l]
  | _ + 1, [], cur => [cur.reverse]
  | fuel + 1, c :: t, cur =>
    if strStartsWith sep (c :: t) && !sep.isEmpty then
      cur.reverse :: splitOnSepAux sep fuel ((c :: t).drop sep.length) []
    else splitOnSepAux sep fuel t (c :: cur)

/-- Python `str.split(sep)` for a non-empty separator. -/
def splitOnSep (sep l : Str) : List Str := splitOnSepAux sep l.length l []

def lowerStr (l : Str) : Str := l.map Char.toLower

/- ---------- Python-dict association lists ---------- -/

def alookup {α : Type} : List (Str × α) → Str → Option α
  | [], _ => none
  | (k, v) :: t, key => if k = key then some v else alookup t key

def ainsert {α : Type} : List (Str × α) → Str → α → List (Str × α)
  | [], key, v => [(key, v)]
  | (k, w) :: t, key, v => if k = key then (k, v) :: t else (k, w) :: ainsert t key v

def aerase {α : Type} (m : List (Str × α)) (key : Str) : List (Str × α) :=
  m.filter (fun p => decide (p.1 ≠ key))

def akeys {α : Type} (m : List (Str × α)) : List Str := m.map Prod.fst

def amem {α : Type} (m : List (Str × α)) (key : Str) : Bool := (alookup m key).isSome

/-- Python `dict.update`. -/
def aupdate {α : Type} (m other : List (Str × α)) : List (Str × α) :=
  other.foldl (fun acc p => ainsert acc p.1 p.2) m

/- ---------- Data model ---------- -/

structure FileInfo where
  filename : Str
  purpose : Str
deriving DecidableEq

/-- The plan dict: `{"files": [...], "dependencies": [...]}`. -/
structure Plan where
  files : List FileInfo
  dependencies : List Str
deriving DecidableEq

/-- One entry of the generation-session record. -/
structure SessionEntry where
  purpose : Str
  status : Str
  deps : List Str
  generated_code : Option Str
deriving DecidableEq

abbrev Session := List (Str × SessionEntry)

/-- Store of session records; a context holds an index into it, so in-place
mutation and reference sharing across context values are observable. -/
abbrev SessionHeap := List Session

structure GenerationContext where
  plan : Plan
  project_index : List (Str × Str)
  living_design_context : List (Str × Str)
  dependency_order : List Str
  sessionRef : Nat
  rag_context : Str
  relevance_scores : List (Str × ℚ)
  existing_files : List (Str × Str)
deriving DecidableEq

/- ---------- ContextManager ---------- -/

def pyExt : Str := ".py".toList
def plannedStatus : Str := "planned".toList
def completedStatus : Str := "completed".toList

/-- The keyword→dependency table of `_extract_file_dependencies`. -/
def dependencyPatterns : List (Str × List Str) :=
  [("async".toList, ["asyncio".toList]),
   ("path".toList, ["pathlib".toList]),
   ("json".toList, ["json".toList]),
   ("typing".toList, ["typing".toList]),
   ("service".toList, ["ava.core.event_bus".toList]),
   ("manager".toList, ["pathlib".toList, "typing".toList]),
   ("ui".toList, ["tkinter".toList, "PySide6".toList]),
   ("web".toList, ["flask".toList, "fastapi".toList]),
   ("database".toList, ["sqlite3".toList, "sqlalchemy".toList]),
   ("api".toList, ["requests".toList, "aiohttp".toList])]

/-- Model of `ContextManager._extract_file_dependencies`.  Python returns
`list(set(dependencies))` whose order is unspecified; `dedup` is one faithful
choice of that set as a list. -/
def extractFileDependencies (fi : FileInfo) : List Str :=
  let purpose := lowerStr fi.purpose
  let filename := lowerStr fi.filename
  let deps := dependencyPatterns.foldl
    (fun acc p => if isSubstr p.1 purpose || isSubstr p.1 filename then acc ++ p.2 else acc) []
  deps.dedup

/-- Model of `ContextManager._extract_keywords_from_plan` (result is a Python set). -/
def extractKeywordsFromPlan (plan : Plan) : Finset Str :=
  let wordKeep : Str → Bool := fun w => decide (w.length > 3) && w.all Char.isAlpha
  let fromText : Str → List Str := fun t => ((wordsOf t).filter wordKeep).map (fun w => lowerStr (strip w))
  let fileWords : FileInfo → List Str := fun fi =>
    fromText fi.purpose ++ fromText (replaceAll ("_".toList) (" ".toList) (replaceAll pyExt [] fi.filename))
  ((plan.files.map fileWords).flatten ++ plan.dependencies.map lowerStr).toFinset

/-- Model of `ContextManager._calculate_text_relevance`. -/
def calculateTextRelevance (text : Str) (keywords : Finset Str) : ℚ :=
  if text = [] ∨ keywords = ∅ then 0
  else
    let text_lower := lowerStr text
    let matchCount : Nat := (keywords.filter (fun k => isSubstr k text_lower = true)).card
    let text_words : Nat := (wordsOf text).length
    let keyword_count : Nat := keywords.card
    if text_words = 0 ∨ keyword_count = 0 then 0
    else ((matchCount : ℚ) / (keyword_count : ℚ)) * min 1 ((text_words : ℚ) / 100)

/-- Model of `ContextManager._calculate_relevance_scores`. -/
def calculateRelevanceScores (plan : Plan) (project_index : List (Str × Str)) (rag : Str) :
    List (Str × ℚ) :=
  let keywords := extractKeywordsFromPlan plan
  let base := project_index.foldl
    (fun acc p => ainsert acc (("project_index:".toList) ++ p.1) (calculateTextRelevance p.2 keywords)) []
  if rag = [] then base
  else
    ((splitOnSep ("--- Relevant Document Snippet".toList) rag).enum.foldl
      (fun acc ci =>
        if strip ci.2 = [] then acc
        else ainsert acc (("rag_chunk:".toList) ++ (toString ci.1).toList)
               (calculateTextRelevance ci.2 keywords)) base)

/-- Model of `rel_path.replace('.py', '').replace('/', '.')`. -/
def modulePathOf (filename : Str) : Str :=
  replaceAll ("/".toList) (".".toList) (replaceAll pyExt [] filename)

/-- The existing-files loop of `build_generation_context`; the symbol indexer is
the oracle `getSymbols` (returning `none` models the external call raising). -/
def buildIndexFromExisting (getSymbols : Str → Str → Option (List (Str × Str))) :
    List (Str × Str) → List (Str × Str) → Except Unit (List (Str × Str))
  | acc, [] => .ok acc
  | acc, (rel, content) :: rest =>
    if strEndsWith pyExt rel then
      match getSymbols content (modulePathOf rel) with
      | none => .error ()
      | some syms => buildIndexFromExisting getSymbols (aupdate acc syms) rest
    else buildIndexFromExisting getSymbols acc rest

/-- Model of `ContextManager.build_generation_context`.  `activePath` models
`project_manager and project_manager.active_project_path`; `indexTree` is the
result of `project_indexer.build_index` (`none` models it raising).  Allocates
exactly one session record on the heap. -/
def buildGenerationContext (getSymbols : Str → Str → Option (List (Str × Str)))
    (activePath : Bool) (indexTree : Option (List (Str × Str)))
    (plan : Plan) (rag : Str) (existing : Option (List (Str × Str))) (heap : SessionHeap) :
    Except Unit (SessionHeap × GenerationContext) :=
  let truthyExisting : Bool := match existing with | some l => !l.isEmpty | none => false
  let indexRes : Except Unit (List (Str × Str)) :=
    if activePath && truthyExisting then buildIndexFromExisting getSymbols [] (existing.getD [])
    else if activePath then
      match indexTree with
      | some idx => .ok idx
      | none => .error ()
    else .ok []
  match indexRes with
  | .error e => .error e
  | .ok index₀ =>
    let session : Session := plan.files.foldl
      (fun s fi => ainsert s fi.filename
        { purpose := fi.purpose, status := plannedStatus,
          deps := extractFileDependencies fi, generated_code := none }) []
    let scores := calculateRelevanceScores plan index₀ rag
    .ok (heap ++ [session],
      { plan := plan, project_index := index₀, living_design_context := [],
        dependency_order := [], sessionRef := heap.length, rag_context := rag,
        relevance_scores := scores, existing_files := existing.getD [] })

/-- The in-place session mutation at the top of `update_session_context`:
mark the entry completed and store the generated code (only when the filename
is a key of the session record). -/
def markSessionCompleted (heap : SessionHeap) (ref : Nat) (filename code : Str) : SessionHeap :=
  match heap.get? ref with
  | none => heap
  | some sess =>
    match alookup sess filename with
    | none => heap
    | some e =>
      heap.set ref (ainsert sess filename
        { e with status := completedStatus, generated_code := some code })

/-- Model of `ContextManager.update_session_context`.  The `newFile` list is the
`newly_generated_file` dict; `items()[0]` on an empty dict raises, which the
`except` swallows, returning the untouched inputs.  `getSymbols` returning
`none` models `get_symbols_from_content` raising *after* the in-place session
mutation: the `except` then returns the original context value (whose session
record on the heap is already mutated). -/
def updateSessionContext (getSymbols : Str → Str → Option (List (Str × Str)))
    (heap : SessionHeap) (ctx : GenerationContext) (newFile : List (Str × Str)) :
    SessionHeap × GenerationContext :=
  match newFile with
  | [] => (heap, ctx)
  | (filename, code) :: _ =>
    let heap₁ := markSessionCompleted heap ctx.sessionRef filename code
    let updated₀ := ctx.project_index
    if strEndsWith pyExt filename then
      match getSymbols code (modulePathOf filename) with
      | none => (heap₁, ctx)
      | some syms => (heap₁, { ctx with project_index := aupdate updated₀ syms })
    else (heap₁, { ctx with project_index := updated₀ })

/- ---------- GenerationCoordinator ---------- -/

def tscnExt : Str := ".tscn".toList
def gdExt : Str := ".gd".toList

/-- Python `str.capitalize()`. -/
def capitalizePy : Str → Str
  | [] => []
  | c :: t => c.toUpper :: t.map Char.toLower

def basenameOf (l : Str) : Str :=
  (l.reverse.takeWhile (fun c => decide (c ≠ '/'))).reverse

/-- Model of `pathlib.PurePath.suffix`: the last extension of the final component
(empty when the last dot is the first or missing character of the name). -/
def pySuffix (l : Str) : Str :=
  let name := basenameOf l
  let after := name.reverse.takeWhile (fun c => decide (c ≠ '.'))
  if after.length = name.length then []
  else if after.length = 0 then []
  else if after.length = name.length - 1 then []
  else '.' :: after.reverse

/-- Model of `pathlib.PurePath.stem`. -/
def pyStem (l : Str) : Str :=
  let name := basenameOf l
  name.take (name.length - (pySuffix l).length)

/-- Model of `[a-zA-Z0-9_]` of the regexes. -/
def isWordChar (c : Char) : Bool := c.isAlphanum || decide (c = '_')

/-- Case-insensitive literal `kw` (given lowercased) at the head of `l`,
then `\s+`, then a maximal non-empty `[A-Za-z0-9_]+` capture. -/
def matchKeywordAt (kw : Str) (l : Str) : Option Str :=
  if lowerStr (l.take kw.length) = kw then
    match l.drop kw.length with
    | c :: rest =>
      if pyIsSpace c then
        let word := (rest.dropWhile pyIsSpace).takeWhile isWordChar
        if word.isEmpty then none else some word
      else none
    | [] => none
  else none

/-- One position of `re.search(r'(?:Root node is|Extends)\s+([A-Za-z0-9_]+)', _, IGNORECASE)`:
first alternative, then second. -/
def matchNodeTypeAt (l : Str) : Option Str :=
  match matchKeywordAt ("root node is".toList) l with
  | some w => some w
  | none => matchKeywordAt ("extends".toList) l

def searchNodeType : Str → Option Str
  | [] => none
  | c :: t =>
    match matchNodeTypeAt (c :: t) with
    | some w => some w
    | none => searchNodeType t

/-- Model of `GenerationCoordinator._extract_node_type_from_purpose`. -/
def extractNodeTypeFromPurpose (purpose : Str) : Str :=
  match searchNodeType purpose with
  | some w => w
  | none => "Node".toList

def natDecimal (n : Nat) : Str := (toString n).toList

/-- Model of `create_tscn_content`.  `pyHash` is Python's builtin `hash` on strings,
an external fixed function of the interpreter session. -/
def createTscnContent (pyHash : Str → Int) (node_type script_path : Str) : Str :=
  let script_uid := ("uid://b".toList) ++ natDecimal ((pyHash script_path).natAbs % 10 ^ 10)
  ("[gd_scene load_steps=2 format=3 uid=\"uid://b".toList)
    ++ natDecimal ((pyHash (node_type ++ script_path)).natAbs % 10 ^ 10)
    ++ ("\"]\n\n[ext_resource type=\"Script\" path=\"res://".toList)
    ++ script_path
    ++ ("\" id=\"1_".toList) ++ script_uid
    ++ ("\"]\n\n[node name=\"".toList) ++ capitalizePy (pyStem script_path)
    ++ ("\" type=\"".toList) ++ node_type
    ++ ("\"]\nscript = ExtResource(\"1_".toList) ++ script_uid
    ++ ("\")\n".toList)

/-- The prompt handed to the model client, by strategy, carrying exactly the
inputs each `_build_*_prompt` serializes (the fixed template text around them
is external constant data and is not modelled). -/
inductive Prompt where
  | custom (template fname stem purpose : Str) (plan : Plan)
  | pythonCoder (fname purpose : Str) (origCode : Option Str) (plan : Plan)
      (index : List (Str × Str)) (otherPy : List (Str × Str))
  | gdscript (fname purpose : Str) (plan : Plan)
  | godotGeneric (fname purpose : Str) (plan : Plan)
  | simple (fname purpose : Str) (plan : Plan) (others : List (Str × Str))
deriving DecidableEq

/-- Outcome of one model-backed generation attempt: `raise` is an exception
escaping to the orchestration loop (e.g. template formatting), `noModel` is
`get_model_for_role` returning nothing, `streamFail` an exception caught in
the streaming loop, `produced s` the accumulated streamed text. -/
inductive GenOutcome where
  | raise
  | noModel
  | streamFail
  | produced (s : Str)
deriving DecidableEq

def promptFname : Prompt → Str
  | .custom _ f _ _ _ => f
  | .pythonCoder f _ _ _ _ _ => f
  | .gdscript f _ _ => f
  | .godotGeneric f _ _ => f
  | .simple f _ _ _ => f

/-- Model of `GenerationCoordinator._build_python_coder_prompt`. -/
def buildPythonCoderPrompt (fi : FileInfo) (ctx : GenerationContext)
    (others : List (Str × Str)) : Prompt :=
  let origCode :=
    if amem ctx.existing_files fi.filename then
      some ((alookup ctx.existing_files fi.filename).getD [])
    else none
  let otherPy := others.filter (fun p => strEndsWith pyExt p.1)
  .pythonCoder fi.filename fi.purpose origCode ctx.plan ctx.project_index otherPy

/-- Model of `GenerationCoordinator._generate_single_file`: extension dispatch.
`.ok none` is a handled per-artifact failure; `.error` an exception escaping
to the loop. -/
def generateSingleFile (pyHash : Str → Int) (outcome : Prompt → GenOutcome)
    (customPrompts : List (Str × Str)) (fi : FileInfo) (ctx : GenerationContext)
    (others : List (Str × Str)) : Except Unit (Option Str) :=
  let ext := pySuffix fi.filename
  if ext = tscnExt then
    .ok (some (createTscnContent pyHash (extractNodeTypeFromPurpose fi.purpose)
      (replaceAll tscnExt gdExt fi.filename)))
  else
    let prompt :=
      if amem customPrompts ext then
        Prompt.custom ((alookup customPrompts ext).getD []) fi.filename
          (pyStem fi.filename) fi.purpose ctx.plan
      else if ext = pyExt then buildPythonCoderPrompt fi ctx others
      else if ext = gdExt then .gdscript fi.filename fi.purpose ctx.plan
      else if ext = (".godot".toList) ∨ ext = (".import".toList) ∨ ext = (".svg".toList) then
        .godotGeneric fi.filename fi.purpose ctx.plan
      else .simple fi.filename fi.purpose ctx.plan others
    match outcome prompt with
    | .raise => .error ()
    | .noModel => .ok none
    | .streamFail => .ok none
    | .produced s => .ok (some s)

def fenceTicks : Str := "```".toList
def closeDelim : Str := "\n```".toList

/-- One candidate position of
`re.compile(r'```(?:[a-zA-Z0-9_]*)?\n(.*?)\n```', re.DOTALL).search`:
literal backticks, a maximal (necessarily newline-terminated) tag run, then
the lazy body up to the first closing delimiter. -/
def matchFenceAt (l : Str) : Option Str :=
  if strStartsWith fenceTicks l then
    match (l.drop 3).dropWhile isWordChar with
    | '\n' :: body => (splitOnFirst closeDelim body).map Prod.fst
    | _ => none
  else none

/-- Leftmost-position regex search. -/
def reSearchFence : Str → Option Str
  | [] => none
  | c :: t =>
    match matchFenceAt (c :: t) with
    | some b => some b
    | none => reSearchFence t

/-- Model of `GenerationCoordinator.robust_clean_llm_output`. -/
def robustCleanLlmOutput (content : Str) : Str :=
  let c := strip content
  match reSearchFence c with
  | some body => strip body
  | none => c

/-- The failure placeholder f-string stored for an artifact that produced no content. -/
def errPlaceholder (filename : Str) : Str :=
  ("# ERROR: Failed to generate content for ".toList) ++ filename

/-- The external collaborators of one run. -/
structure Services where
  pyHash : Str → Int
  outcome : Prompt → GenOutcome
  getSymbols : Str → Str → Option (List (Str × Str))
  activePath : Bool
  indexTree : Option (List (Str × Str))
  planOrder : GenerationContext → Except Unit (List Str)

/-- The orchestration loop of `coordinate_generation`.  The first component of
the result is ghost instrumentation: for every artifact whose strategy was
invoked, the `other_generated_files` view passed to it.  The second component
is the loop's outcome: the result dict, the heap, the final context — or the
exception escaping the loop. -/
def genLoop (S : Services) (customPrompts : List (Str × Str)) (plan : Plan) :
    List Str → List (Str × Str) → SessionHeap → GenerationContext →
    List (Str × List (Str × Str)) ×
      Except Unit (List (Str × Str) × SessionHeap × GenerationContext)
  | [], acc, heap, ctx => ([], .ok (acc, heap, ctx))
  | f :: rest, acc, heap, ctx =>
    match plan.files.find? (fun fi => decide (fi.filename = f)) with
    | none => genLoop S customPrompts plan rest acc heap ctx
    | some fi =>
      let others := aerase acc f
      match generateSingleFile S.pyHash S.outcome customPrompts fi ctx others with
      | .error e => ([(f, others)], .error e)
      | .ok (some content) =>
        let cleaned := robustCleanLlmOutput content
        let acc' := ainsert acc f cleaned
        let hc := updateSessionContext S.getSymbols heap ctx [(f, cleaned)]
        let r := genLoop S customPrompts plan rest acc' hc.1 hc.2
        ((f, others) :: r.1, r.2)
      | .ok none =>
        let acc' := ainsert acc f (errPlaceholder f)
        let r := genLoop S customPrompts plan rest acc' heap ctx
        ((f, others) :: r.1, r.2)

/-- The body of `coordinate_generation`'s `try` block. -/
def coordinateRun (S : Services) (plan : Plan) (rag : Str)
    (existing : Option (List (Str × Str))) (customPrompts : List (Str × Str))
    (heap : SessionHeap) : Except Unit (List (Str × Str)) :=
  match buildGenerationContext S.getSymbols S.activePath S.indexTree plan rag existing heap with
  | .error e => .error e
  | .ok hc =>
    match S.planOrder hc.2 with
    | .error e => .error e
    | .ok order =>
      match (genLoop S customPrompts plan order [] hc.1 hc.2).2 with
      | .error e => .error e
      | .ok t => .ok t.1

/-- Model of `GenerationCoordinator.coordinate_generation`: the `except` clause turns
any escaping exception into an empty result mapping. -/
def coordinateGeneration (S : Services) (plan : Plan) (rag : Str)
    (existing : Option (List (Str × Str))) (customPrompts : List (Str × Str))
    (heap : SessionHeap) : List (Str × Str) :=
  match coordinateRun S plan rag existing customPrompts heap with
  | .ok d => d
  | .error _ => []

/-- Folding `update_session_context` over a run's successive artifacts. -/
def applyUpdates (getSymbols : Str → Str → Option (List (Str × Str)))
    (p : SessionHeap × GenerationContext) (ups : List (List (Str × Str))) :
    SessionHeap × GenerationContext :=
  ups.foldl (fun hc nf => updateSessionContext getSymbols hc.1 hc.2 nf) p

/- ---------- Spec-side definitions ---------- -/

/-- Modelled from the spec: the relevance formula of §4.1 — "score = (fraction
of keyword set found as substrings in the candidate text) × min(1,
wordCount(text)/100). Returns 0 for empty text or empty keyword set."  Used to
compare `calculateTextRelevance` against the spec's words. -/
def relevanceSpecFormula (text : Str) (keywords : Finset Str) : ℚ :=
  if text = [] ∨ keywords = ∅ then 0
  else
    (((keywords.filter (fun k => isSubstr k (lowerStr text) = true)).card : ℚ) / (keywords.card : ℚ))
      * min 1 (((wordsOf text).length : ℚ) / 100)

/-- Modelled from the spec (C4): "wrapping T in a fenced block (a ``` delimiter
line with or without a language tag, then T, then a closing ``` line)". -/
def wrapFence (tag T : Str) : Str :=
  fenceTicks ++ tag ++ '\n' :: (T ++ closeDelim)

/- ---------- Concrete inputs used by counterexamples and witnesses ---------- -/

/-- A two-artifact plan used to exercise the loop concretely. -/
def c5plan : Plan := ⟨[⟨"a.py".toList, "alpha".toList⟩, ⟨"b.py".toList, "beta".toList⟩], []⟩

/-- Collaborators whose model fails on `a.py` and succeeds on `b.py`. -/
def c5services : Services where
  pyHash := fun _ => 0
  outcome := fun p => if promptFname p = ("a.py".toList) then .noModel else .produced ("x".toList)
  getSymbols := fun _ _ => some []
  activePath := false
  indexTree := none
  planOrder := fun _ => .ok [("a.py".toList), ("b.py".toList)]

def c5ctx : GenerationContext := ⟨c5plan, [], [], [], 0, [], [], []⟩

def c5heap : SessionHeap :=
  [[(("a.py".toList), ⟨"alpha".toList, plannedStatus, [], none⟩),
    (("b.py".toList), ⟨"beta".toList, plannedStatus, [], none⟩)]]

/-- The heap a finished loop left behind (empty on an aborted run). -/
def finalHeapOf
    (r : List (Str × List (Str × Str)) ×
      Except Unit (List (Str × Str) × SessionHeap × GenerationContext)) : SessionHeap :=
  match r.2 with
  | .ok t => t.2.1
  | .error _ => []

def c2heap : SessionHeap := [[(("a.py".toList), ⟨"p".toList, plannedStatus, [], none⟩)]]

def c2ctx : GenerationContext := ⟨⟨[], []⟩, [], [], [], 0, [], [], []⟩

/-- A one-artifact plan for witnesses. -/
def planOneFile : Plan := ⟨[⟨"a.py".toList, "data".toList⟩], []⟩

/-- Collaborators that always succeed, with no active project path. -/
def sOneFile : Services where
  pyHash := fun _ => 0
  outcome := fun _ => .produced ("x".toList)
  getSymbols := fun _ _ => some []
  activePath := false
  indexTree := none
  planOrder := fun _ => .ok [("a.py".toList)]

/-- The context `buildGenerationContext` produces from `planOneFile` with no
active path, empty retrieval text and no existing files, on an empty heap. -/
def w1ctx : GenerationContext :=
  { plan := planOneFile, project_index := [], living_design_context := [],
    dependency_order := [], sessionRef := 0, rag_context := [],
    relevance_scores := [], existing_files := [] }

def w1sess : Session := [(("a.py".toList), ⟨"data".toList, plannedStatus, [], none⟩)]

/-- A context holding one pre-existing symbol, for exercising index updates. -/
def c3ctx : GenerationContext :=
  ⟨⟨[], []⟩, [(("Old".toList), ("m".toList))], [], [], 0, [], [], []⟩

/-- Collaborators identical to `sOneFile` except that the dependency planner raises. -/
def sPlanFails : Services :=
  { sOneFile with planOrder := fun _ => .error () }

/- ---------- Association-list lemmas ---------- -/

theorem alookup_nil {α : Type} (k : Str) : alookup ([] : List (Str × α)) k = none := rfl

theorem alookup_cons {α : Type} (k' : Str) (v : α) (t : List (Str × α)) (key : Str) :
    alookup ((k', v) :: t) key = if k' = key then some v else alookup t key := rfl

theorem alookup_cons_self {α : Type} (k : Str) (v : α) (t : List (Str × α)) :
    alookup ((k, v) :: t) k = some v := by rw [alookup_cons, if_pos rfl]

theorem alookup_cons_ne {α : Type} (k' : Str) (v : α) (t : List (Str × α)) (key : Str)
    (h : k' ≠ key) : alookup ((k', v) :: t) key = alookup t key := by
  rw [alookup_cons, if_neg h]

theorem ainsert_nil {α : Type} (key : Str) (v : α) : ainsert [] key v = [(key, v)] := rfl

theorem ainsert_cons_self {α : Type} (k : Str) (w : α) (t : List (Str × α)) (v : α) :
    ainsert ((k, w) :: t) k v = (k, v) :: t := by
  show (if k = k then (k, v) :: t else (k, w) :: ainsert t k v) = (k, v) :: t
  rw [if_pos rfl]

theorem ainsert_cons_ne {α : Type} (k : Str) (w : α) (t : List (Str × α)) (key : Str) (v : α)
    (h : k ≠ key) : ainsert ((k, w) :: t) key v = (k, w) :: ainsert t key v := by
  show (if k = key then (k, v) :: t else (k, w) :: ainsert t key v) = _
  rw [if_neg h]

theorem akeys_nil {α : Type} : akeys ([] : List (Str × α)) = [] := rfl

theorem akeys_cons {α : Type} (k : Str) (v : α) (t : List (Str × α)) :
    akeys ((k, v) :: t) = k :: akeys t := rfl

theorem alookup_isSome_iff_mem {α : Type} (m : List (Str × α)) (k : Str) :
    (alookup m k).isSome = true ↔ k ∈ akeys m := by
  induction m with
  | nil =>
    simp only [alookup_nil, Option.isSome_none, akeys_nil, List.not_mem_nil, iff_false,
      Bool.false_eq_true, not_false_eq_true]
  | cons p t ih =>
    obtain ⟨k', v⟩ := p
    by_cases h : k' = k
    · subst h
      rw [alookup_cons_self]
      simp only [Option.isSome_some, akeys_cons, List.mem_cons, true_iff]
      exact Or.inl trivial
    · rw [alookup_cons_ne _ _ _ _ h]
      simp only [akeys_cons, List.mem_cons, ih]
      constructor
      · exact Or.inr
      · rintro (rfl | hm)
        · exact absurd rfl h
        · exact hm

theorem alookup_eq_none_iff {α : Type} (m : List (Str × α)) (k : Str) :
    alookup m k = none ↔ k ∉ akeys m := by
  rw [← alookup_isSome_iff_mem]
  cases alookup m k <;> simp

theorem alookup_ainsert_self {α : Type} (m : List (Str × α)) (k : Str) (v : α) :
    alookup (ainsert m k v) k = some v := by
  induction m with
  | nil => rw [ainsert_nil, alookup_cons_self]
  | cons p t ih =>
    obtain ⟨k', w⟩ := p
    by_cases h : k' = k
    · subst h; rw [ainsert_cons_self, alookup_cons_self]
    · rw [ainsert_cons_ne _ _ _ _ _ h, alookup_cons_ne _ _ _ _ h, ih]

theorem alookup_ainsert_ne {α : Type} (m : List (Str × α)) (k : Str) (v : α)
    (a : Str) (h : a ≠ k) : alookup (ainsert m k v) a = alookup m a := by
  induction m with
  | nil =>
    rw [ainsert_nil, alookup_cons_ne _ _ _ _ (fun hh => h hh.symm), alookup_nil]
  | cons p t ih =>
    obtain ⟨k', w⟩ := p
    by_cases hk : k' = k
    · subst hk
      rw [ainsert_cons_self, alookup_cons_ne _ _ _ _ (fun hh => h hh.symm),
        alookup_cons_ne _ _ _ _ (fun hh => h hh.symm)]
    · by_cases ha : k' = a
      · subst ha
        rw [ainsert_cons_ne _ _ _ _ _ hk, alookup_cons_self, alookup_cons_self]
      · rw [ainsert_cons_ne _ _ _ _ _ hk, alookup_cons_ne _ _ _ _ ha,
          alookup_cons_ne _ _ _ _ ha, ih]

theorem mem_akeys_ainsert {α : Type} (m : List (Str × α)) (k : Str) (v : α) (a : Str) :
    a ∈ akeys (ainsert m k v) ↔ a ∈ akeys m ∨ a = k := by
  induction m with
  | nil =>
    rw [ainsert_nil, akeys_cons, akeys_nil]
    simp only [List.mem_cons, List.not_mem_nil, or_false, false_or]
  | cons p t ih =>
    obtain ⟨k', w⟩ := p
    by_cases h : k' = k
    · subst h
      rw [ainsert_cons_self, akeys_cons, akeys_cons]
      simp only [List.mem_cons]
      tauto
    · rw [ainsert_cons_ne _ _ _ _ _ h, akeys_cons, akeys_cons]
      simp only [List.mem_cons, ih]
      tauto

theorem nodup_akeys_ainsert {α : Type} (m : List (Str × α)) (k : Str) (v : α)
    (h : (akeys m).Nodup) : (akeys (ainsert m k v)).Nodup := by
  induction m with
  | nil =>
    rw [ainsert_nil, akeys_cons, akeys_nil]
    exact List.nodup_singleton _
  | cons p t ih =>
    obtain ⟨k', w⟩ := p
    rw [akeys_cons, List.nodup_cons] at h
    by_cases hk : k' = k
    · subst hk
      rw [ainsert_cons_self, akeys_cons, List.nodup_cons]
      exact h
    · rw [ainsert_cons_ne _ _ _ _ _ hk, akeys_cons, List.nodup_cons]
      refine ⟨?_, ih h.2⟩
      intro hmem
      rcases (mem_akeys_ainsert t k v k').1 hmem with h1 | h1
      · exact h.1 h1
      · exact hk h1

theorem mem_akeys_aerase {α : Type} (m : List (Str × α)) (key a : Str) :
    a ∈ akeys (aerase m key) ↔ a ∈ akeys m ∧ a ≠ key := by
  induction m with
  | nil =>
    simp only [aerase, List.filter_nil, akeys_nil, List.not_mem_nil, false_and]
  | cons p t ih =>
    obtain ⟨k, v⟩ := p
    rw [aerase, List.filter_cons]
    by_cases h : k = key
    · subst h
      rw [if_neg (by simp)]
      rw [aerase] at ih
      rw [ih, akeys_cons]
      simp only [List.mem_cons]
      constructor
      · rintro ⟨h1, h2⟩; exact ⟨Or.inr h1, h2⟩
      · rintro ⟨(rfl | h1), h2⟩
        · exact absurd rfl h2
        · exact ⟨h1, h2⟩
    · rw [if_pos (by simpa using h)]
      rw [akeys_cons, akeys_cons]
      rw [aerase] at ih
      simp only [List.mem_cons, ih]
      by_cases ha : a = k
      · subst ha; simp only [true_or, true_and]; tauto
      · simp only [ha, false_or]

theorem mem_akeys_aupdate {α : Type} (l m : List (Str × α)) (a : Str) :
    a ∈ akeys (aupdate m l) ↔ a ∈ akeys m ∨ a ∈ akeys l := by
  induction l generalizing m with
  | nil =>
    simp only [aupdate, List.foldl_nil, akeys_nil, List.not_mem_nil, or_false]
  | cons p t ih =>
    obtain ⟨k, v⟩ := p
    show a ∈ akeys (aupdate (ainsert m k v) t) ↔ _
    rw [ih, mem_akeys_ainsert, akeys_cons]
    simp only [List.mem_cons]
    tauto

theorem alookup_aupdate_notin {α : Type} (l m : List (Str × α)) (k : Str)
    (h : k ∉ akeys l) : alookup (aupdate m l) k = alookup m k := by
  induction l generalizing m with
  | nil => rfl
  | cons p t ih =>
    obtain ⟨k', v⟩ := p
    rw [akeys_cons] at h
    simp only [List.mem_cons] at h
    push_neg at h
    show alookup (aupdate (ainsert m k' v) t) k = _
    rw [ih _ h.2, alookup_ainsert_ne _ _ _ _ h.1]

theorem alookup_aupdate_of_lookup {α : Type} (l m : List (Str × α)) (k : Str) (v : α)
    (hnd : (akeys l).Nodup) (h : alookup l k = some v) :
    alookup (aupdate m l) k = some v := by
  induction l generalizing m with
  | nil => rw [alookup_nil] at h; exact absurd h (by simp)
  | cons p t ih =>
    obtain ⟨k', w⟩ := p
    rw [akeys_cons, List.nodup_cons] at hnd
    show alookup (aupdate (ainsert m k' w) t) k = some v
    by_cases hk : k' = k
    · subst hk
      rw [alookup_cons_self] at h
      rw [alookup_aupdate_notin _ _ _ hnd.1, alookup_ainsert_self]
      exact h
    · rw [alookup_cons_ne _ _ _ _ hk] at h
      exact ih _ hnd.2 h

theorem nodup_akeys_aerase {α : Type} (m : List (Str × α)) (key : Str)
    (h : (akeys m).Nodup) : (akeys (aerase m key)).Nodup := by
  induction m with
  | nil => simp [aerase, akeys_nil]
  | cons p t ih =>
    obtain ⟨k, v⟩ := p
    rw [akeys_cons, List.nodup_cons] at h
    rw [aerase, List.filter_cons]
    by_cases hk : k = key
    · subst hk
      rw [if_neg (by simp)]
      exact ih h.2
    · rw [if_pos (by simpa using hk)]
      rw [akeys_cons, List.nodup_cons]
      refine ⟨?_, ih h.2⟩
      intro hmem
      exact h.1 ((mem_akeys_aerase t key k).1 hmem).1

/- ---------- update_session_context / build_generation_context lemmas ---------- -/

theorem updateSessionContext_nil (gs : Str → Str → Option (List (Str × Str)))
    (heap : SessionHeap) (ctx : GenerationContext) :
    updateSessionContext gs heap ctx [] = (heap, ctx) := rfl

theorem updateSessionContext_py_fail (gs : Str → Str → Option (List (Str × Str)))
    (heap : SessionHeap) (ctx : GenerationContext) (f code : Str) (rest : List (Str × Str))
    (hpy : strEndsWith pyExt f = true) (hgs : gs code (modulePathOf f) = none) :
    updateSessionContext gs heap ctx ((f, code) :: rest) =
      (markSessionCompleted heap ctx.sessionRef f code, ctx) := by
  simp only [updateSessionContext, hpy, hgs, if_true]

theorem updateSessionContext_py_ok (gs : Str → Str → Option (List (Str × Str)))
    (heap : SessionHeap) (ctx : GenerationContext) (f code : Str) (rest : List (Str × Str))
    (syms : List (Str × Str))
    (hpy : strEndsWith pyExt f = true) (hgs : gs code (modulePathOf f) = some syms) :
    updateSessionContext gs heap ctx ((f, code) :: rest) =
      (markSessionCompleted heap ctx.sessionRef f code,
        { ctx with project_index := aupdate ctx.project_index syms }) := by
  simp only [updateSessionContext, hpy, hgs, if_true]

theorem updateSessionContext_not_py (gs : Str → Str → Option (List (Str × Str)))
    (heap : SessionHeap) (ctx : GenerationContext) (f code : Str) (rest : List (Str × Str))
    (hpy : strEndsWith pyExt f = false) :
    updateSessionContext gs heap ctx ((f, code) :: rest) =
      (markSessionCompleted heap ctx.sessionRef f code, ctx) := by
  simp only [updateSessionContext, hpy, Bool.false_eq_true, if_false]

theorem markSessionCompleted_length (heap : SessionHeap) (ref : Nat) (f code : Str) :
    (markSessionCompleted heap ref f code).length = heap.length := by
  simp only [markSessionCompleted]
  split
  · rfl
  · split
    · rfl
    · exact List.length_set _ _ _

theorem markSessionCompleted_not_mem (heap : SessionHeap) (ref : Nat) (f code : Str)
    (sess : Session) (hs : heap.get? ref = some sess) (hmem : alookup sess f = none) :
    markSessionCompleted heap ref f code = heap := by
  simp only [markSessionCompleted, hs, hmem]

theorem updateSessionContext_sessionRef (gs : Str → Str → Option (List (Str × Str)))
    (heap : SessionHeap) (ctx : GenerationContext) (nf : List (Str × Str)) :
    (updateSessionContext gs heap ctx nf).2.sessionRef = ctx.sessionRef := by
  cases nf with
  | nil => rfl
  | cons p rest =>
    obtain ⟨f, code⟩ := p
    by_cases hpy : strEndsWith pyExt f = true
    · cases hgs : gs code (modulePathOf f) with
      | none => rw [updateSessionContext_py_fail gs heap ctx f code rest hpy hgs]
      | some syms => rw [updateSessionContext_py_ok gs heap ctx f code rest syms hpy hgs]
    · rw [updateSessionContext_not_py gs heap ctx f code rest (by simpa using hpy)]

theorem updateSessionContext_heapLength (gs : Str → Str → Option (List (Str × Str)))
    (heap : SessionHeap) (ctx : GenerationContext) (nf : List (Str × Str)) :
    (updateSessionContext gs heap ctx nf).1.length = heap.length := by
  cases nf with
  | nil => rfl
  | cons p rest =>
    obtain ⟨f, code⟩ := p
    by_cases hpy : strEndsWith pyExt f = true
    · cases hgs : gs code (modulePathOf f) with
      | none =>
        rw [updateSessionContext_py_fail gs heap ctx f code rest hpy hgs]
        exact markSessionCompleted_length _ _ _ _
      | some syms =>
        rw [updateSessionContext_py_ok gs heap ctx f code rest syms hpy hgs]
        exact markSessionCompleted_length _ _ _ _
    · rw [updateSessionContext_not_py gs heap ctx f code rest (by simpa using hpy)]
      exact markSessionCompleted_length _ _ _ _

theorem applyUpdates_pres (gs : Str → Str → Option (List (Str × Str)))
    (ups : List (List (Str × Str))) (p : SessionHeap × GenerationContext) :
    (applyUpdates gs p ups).2.sessionRef = p.2.sessionRef ∧
      (applyUpdates gs p ups).1.length = p.1.length := by
  induction ups generalizing p with
  | nil => exact ⟨rfl, rfl⟩
  | cons u t ih =>
    have step : applyUpdates gs p (u :: t) =
        applyUpdates gs (updateSessionContext gs p.1 p.2 u) t := rfl
    rw [step]
    obtain ⟨h1, h2⟩ := ih (updateSessionContext gs p.1 p.2 u)
    exact ⟨h1.trans (updateSessionContext_sessionRef gs p.1 p.2 u),
      h2.trans (updateSessionContext_heapLength gs p.1 p.2 u)⟩

theorem buildGenerationContext_ok (gs : Str → Str → Option (List (Str × Str)))
    (ap : Bool) (it : Option (List (Str × Str))) (plan : Plan) (rag : Str)
    (ex : Option (List (Str × Str))) (heap heap₁ : SessionHeap) (ctx : GenerationContext)
    (hb : buildGenerationContext gs ap it plan rag ex heap = .ok (heap₁, ctx)) :
    heap₁.length = heap.length + 1 ∧ ctx.sessionRef = heap.length := by
  simp only [buildGenerationContext] at hb
  split at hb
  · exact absurd hb (by simp)
  · simp only [Except.ok.injEq, Prod.mk.injEq] at hb
    obtain ⟨h1, h2⟩ := hb
    constructor
    · rw [← h1, List.length_append, List.length_singleton]
    · rw [← h2]

/- ---------- generateSingleFile / genLoop lemmas ---------- -/

theorem generateSingleFile_tscn (pyHash : Str → Int) (outcome : Prompt → GenOutcome)
    (custom : List (Str × Str)) (fi : FileInfo) (ctx : GenerationContext)
    (others : List (Str × Str)) (h : pySuffix fi.filename = tscnExt) :
    generateSingleFile pyHash outcome custom fi ctx others =
      .ok (some (createTscnContent pyHash (extractNodeTypeFromPurpose fi.purpose)
        (replaceAll tscnExt gdExt fi.filename))) := by
  simp only [generateSingleFile]
  rw [if_pos h]

theorem generateSingleFile_produced (pyHash : Str → Int) (outcome : Prompt → GenOutcome)
    (custom : List (Str × Str)) (fi : FileInfo) (ctx : GenerationContext)
    (others : List (Str × Str)) (hs : ∀ p, ∃ s, outcome p = .produced s) :
    ∃ s, generateSingleFile pyHash outcome custom fi ctx others = .ok (some s) := by
  simp only [generateSingleFile]
  split
  · exact ⟨_, rfl⟩
  · obtain ⟨s, hp⟩ := hs _
    rw [hp]
    exact ⟨s, rfl⟩

theorem generateSingleFile_ne_error (pyHash : Str → Int) (outcome : Prompt → GenOutcome)
    (custom : List (Str × Str)) (fi : FileInfo) (ctx : GenerationContext)
    (others : List (Str × Str)) (hs : ∀ p, outcome p ≠ .raise) (e : Unit) :
    generateSingleFile pyHash outcome custom fi ctx others ≠ .error e := by
  simp only [generateSingleFile]
  split
  · simp
  · cases hp : outcome _ with
    | raise => exact absurd hp (hs _)
    | noModel => simp
    | streamFail => simp
    | produced s => simp

theorem genLoop_ok (S : Services) (custom : List (Str × Str)) (plan : Plan)
    (hs : ∀ p, S.outcome p ≠ .raise) :
    ∀ (order : List Str) (acc : List (Str × Str)) (heap : SessionHeap)
      (ctx : GenerationContext), ∃ t, (genLoop S custom plan order acc heap ctx).2 = .ok t := by
  intro order
  induction order with
  | nil => intro acc heap ctx; exact ⟨_, rfl⟩
  | cons f rest ih =>
    intro acc heap ctx
    cases hfind : plan.files.find? (fun fi => decide (fi.filename = f)) with
    | none =>
      simp only [genLoop, hfind]
      exact ih acc heap ctx
    | some fi =>
      cases hgen : generateSingleFile S.pyHash S.outcome custom fi ctx (aerase acc f) with
      | error e => exact absurd hgen (generateSingleFile_ne_error _ _ _ _ _ _ hs e)
      | ok o =>
        cases o with
        | none =>
          simp only [genLoop, hfind, hgen]
          exact ih _ _ _
        | some content =>
          simp only [genLoop, hfind, hgen]
          exact ih _ _ _

theorem genLoop_ok_keys (S : Services) (custom : List (Str × Str)) (plan : Plan) :
    ∀ (order : List Str) (acc : List (Str × Str)) (heap : SessionHeap)
      (ctx : GenerationContext) (d : List (Str × Str)) (h2 : SessionHeap)
      (c2 : GenerationContext),
      (genLoop S custom plan order acc heap ctx).2 = .ok (d, h2, c2) →
      ∀ a, a ∈ akeys d ↔ a ∈ akeys acc ∨
        (a ∈ order ∧ (plan.files.find? (fun fi => decide (fi.filename = a))).isSome = true) := by
  intro order
  induction order with
  | nil =>
    intro acc heap ctx d h2 c2 hb a
    simp only [genLoop, Except.ok.injEq, Prod.mk.injEq] at hb
    rw [← hb.1]
    simp
  | cons f rest ih =>
    intro acc heap ctx d h2 c2 hb a
    cases hfind : plan.files.find? (fun fi => decide (fi.filename = f)) with
    | none =>
      simp only [genLoop, hfind] at hb
      rw [ih _ _ _ _ _ _ hb a]
      constructor
      · rintro (h1 | ⟨h1, h2'⟩)
        · exact Or.inl h1
        · exact Or.inr ⟨List.mem_cons_of_mem _ h1, h2'⟩
      · rintro (h1 | ⟨h1, h2'⟩)
        · exact Or.inl h1
        · rcases List.mem_cons.1 h1 with rfl | h1
          · rw [hfind] at h2'; simp at h2'
          · exact Or.inr ⟨h1, h2'⟩
    | some fi =>
      cases hgen : generateSingleFile S.pyHash S.outcome custom fi ctx (aerase acc f) with
      | error e =>
        simp only [genLoop, hfind, hgen] at hb
        exact Except.noConfusion hb
      | ok o =>
        have main : ∀ (content : Str),
            (genLoop S custom plan rest (ainsert acc f content)
              (updateSessionContext S.getSymbols heap ctx [(f, content)]).1
              (updateSessionContext S.getSymbols heap ctx [(f, content)]).2).2 = .ok (d, h2, c2) ∨
            (genLoop S custom plan rest (ainsert acc f content) heap ctx).2 = .ok (d, h2, c2) →
            (a ∈ akeys d ↔ a ∈ akeys acc ∨
              (a ∈ f :: rest ∧
                (plan.files.find? (fun fi => decide (fi.filename = a))).isSome = true)) := by
          intro content hrec
          have hkeys : a ∈ akeys d ↔ a ∈ akeys (ainsert acc f content) ∨
              (a ∈ rest ∧ (plan.files.find? (fun fi => decide (fi.filename = a))).isSome = true) := by
            rcases hrec with hrec | hrec
            · exact ih _ _ _ _ _ _ hrec a
            · exact ih _ _ _ _ _ _ hrec a
          rw [hkeys, mem_akeys_ainsert]
          constructor
          · rintro ((h1 | rfl) | ⟨h1, h2'⟩)
            · exact Or.inl h1
            · refine Or.inr ⟨List.mem_cons_self _ _, ?_⟩
              rw [hfind]; rfl
            · exact Or.inr ⟨List.mem_cons_of_mem _ h1, h2'⟩
          · rintro (h1 | ⟨h1, h2'⟩)
            · exact Or.inl (Or.inl h1)
            · rcases List.mem_cons.1 h1 with rfl | h1
              · exact Or.inl (Or.inr rfl)
              · exact Or.inr ⟨h1, h2'⟩
        cases o with
        | none =>
          simp only [genLoop, hfind, hgen] at hb
          exact main (errPlaceholder f) (Or.inr hb)
        | some content =>
          simp only [genLoop, hfind, hgen] at hb
          exact main (robustCleanLlmOutput content) (Or.inl hb)

theorem genLoop_ok_nodup (S : Services) (custom : List (Str × Str)) (plan : Plan) :
    ∀ (order : List Str) (acc : List (Str × Str)) (heap : SessionHeap)
      (ctx : GenerationContext) (d : List (Str × Str)) (h2 : SessionHeap)
      (c2 : GenerationContext),
      (genLoop S custom plan order acc heap ctx).2 = .ok (d, h2, c2) →
      (akeys acc).Nodup → (akeys d).Nodup := by
  intro order
  induction order with
  | nil =>
    intro acc heap ctx d h2 c2 hb hnd
    simp only [genLoop, Except.ok.injEq, Prod.mk.injEq] at hb
    rwa [← hb.1]
  | cons f rest ih =>
    intro acc heap ctx d h2 c2 hb hnd
    cases hfind : plan.files.find? (fun fi => decide (fi.filename = f)) with
    | none =>
      simp only [genLoop, hfind] at hb
      exact ih _ _ _ _ _ _ hb hnd
    | some fi =>
      cases hgen : generateSingleFile S.pyHash S.outcome custom fi ctx (aerase acc f) with
      | error e =>
        simp only [genLoop, hfind, hgen] at hb
        exact Except.noConfusion hb
      | ok o =>
        cases o with
        | none =>
          simp only [genLoop, hfind, hgen] at hb
          exact ih _ _ _ _ _ _ hb (nodup_akeys_ainsert _ _ _ hnd)
        | some content =>
          simp only [genLoop, hfind, hgen] at hb
          exact ih _ _ _ _ _ _ hb (nodup_akeys_ainsert _ _ _ hnd)

theorem genLoop_append_ok (S : Services) (custom : List (Str × Str)) (plan : Plan) :
    ∀ (o₁ o₂ : List Str) (acc : List (Str × Str)) (heap : SessionHeap)
      (ctx : GenerationContext) (u : List (Str × Str) × SessionHeap × GenerationContext),
      (genLoop S custom plan o₁ acc heap ctx).2 = .ok u →
      genLoop S custom plan (o₁ ++ o₂) acc heap ctx =
        ((genLoop S custom plan o₁ acc heap ctx).1 ++
           (genLoop S custom plan o₂ u.1 u.2.1 u.2.2).1,
         (genLoop S custom plan o₂ u.1 u.2.1 u.2.2).2) := by
  intro o₁
  induction o₁ with
  | nil =>
    intro o₂ acc heap ctx u hb
    simp only [genLoop, Except.ok.injEq] at hb
    subst hb
    rfl
  | cons f o₁' ih =>
    intro o₂ acc heap ctx u hb
    rw [show (f :: o₁') ++ o₂ = f :: (o₁' ++ o₂) from rfl]
    cases hfind : plan.files.find? (fun fi => decide (fi.filename = f)) with
    | none =>
      simp only [genLoop, hfind] at hb ⊢
      exact ih o₂ acc heap ctx u hb
    | some fi =>
      cases hgen : generateSingleFile S.pyHash S.outcome custom fi ctx (aerase acc f) with
      | error e =>
        simp only [genLoop, hfind, hgen] at hb
        exact Except.noConfusion hb
      | ok o =>
        cases o with
        | none =>
          simp only [genLoop, hfind, hgen] at hb ⊢
          rw [ih o₂ _ _ _ u hb]
          rfl
        | some content =>
          simp only [genLoop, hfind, hgen] at hb ⊢
          rw [ih o₂ _ _ _ u hb]
          rfl

theorem genLoop_cons_found_trace (S : Services) (custom : List (Str × Str)) (plan : Plan)
    (f : Str) (rest : List Str) (acc : List (Str × Str)) (heap : SessionHeap)
    (ctx : GenerationContext) (fi : FileInfo)
    (hfind : plan.files.find? (fun fi => decide (fi.filename = f)) = some fi) :
    ∃ tl, (genLoop S custom plan (f :: rest) acc heap ctx).1 = (f, aerase acc f) :: tl := by
  cases hgen : generateSingleFile S.pyHash S.outcome custom fi ctx (aerase acc f) with
  | error e =>
    simp only [genLoop, hfind, hgen]
    exact ⟨[], rfl⟩
  | ok o =>
    cases o with
    | none =>
      simp only [genLoop, hfind, hgen]
      exact ⟨_, rfl⟩
    | some content =>
      simp only [genLoop, hfind, hgen]
      exact ⟨_, rfl⟩

/- ---------- strip / fence-regex lemmas ---------- -/

theorem dropWhile_cons_of_neg {p : Char → Bool} {c : Char} {l : Str} (h : p c = false) :
    (c :: l).dropWhile p = c :: l := by
  simp [List.dropWhile_cons, h]

theorem strip_keep (a b : Char) (m : Str) (ha : pyIsSpace a = false) (hb : pyIsSpace b = false) :
    strip (a :: (m ++ [b])) = a :: (m ++ [b]) := by
  unfold strip
  rw [dropWhile_cons_of_neg ha]
  have hrev : (a :: (m ++ [b])).reverse = b :: (m.reverse ++ [a]) := by
    simp [List.reverse_cons, List.reverse_append]
  rw [hrev, dropWhile_cons_of_neg hb, ← hrev, List.reverse_reverse]

theorem strStartsWith_append (p r : Str) : strStartsWith p (p ++ r) = true := by
  induction p with
  | nil => rfl
  | cons a p ih => simp [strStartsWith, ih]

theorem dropWhile_wordrun (tag : Str) (rest : Str) (h : ∀ c ∈ tag, isWordChar c = true) :
    (tag ++ '\n' :: rest).dropWhile isWordChar = '\n' :: rest := by
  induction tag with
  | nil =>
    rw [List.nil_append]
    exact dropWhile_cons_of_neg (by decide)
  | cons a t ih =>
    have ha : isWordChar a = true := h a (List.mem_cons_self _ _)
    rw [List.cons_append, List.dropWhile_cons, ha, if_pos rfl]
    exact ih (fun c hc => h c (List.mem_cons_of_mem _ hc))

theorem splitOnFirst_closeDelim_concat : ∀ T : Str, isSubstr closeDelim T = false →
    splitOnFirst closeDelim (T ++ closeDelim) = some (T, []) := by
  intro T
  induction T with
  | nil =>
    intro _
    rw [List.nil_append]
    decide
  | cons c T' ih =>
    intro h
    have hparts : strStartsWith closeDelim (c :: T') = false ∧ isSubstr closeDelim T' = false := by
      have h' : (strStartsWith closeDelim (c :: T') || isSubstr closeDelim T') = false := h
      exact ⟨by
        cases hx : strStartsWith closeDelim (c :: T')
        · rfl
        · rw [hx] at h'; simp at h',
        by
        cases hx : isSubstr closeDelim T'
        · rfl
        · rw [hx] at h'; simp at h'⟩
    have hguard : strStartsWith closeDelim (c :: (T' ++ closeDelim)) = false := by
      cases T' with
      | nil => simp [closeDelim, strStartsWith]
      | cons d T'' =>
        cases T'' with
        | nil => simp [closeDelim, strStartsWith]
        | cons e T''' =>
          cases T''' with
          | nil => simp [closeDelim, strStartsWith]
          | cons g rest =>
            have heq : strStartsWith closeDelim (c :: ((d :: e :: g :: rest) ++ closeDelim)) =
                strStartsWith closeDelim (c :: d :: e :: g :: rest) := by
              simp [closeDelim, strStartsWith]
            rw [heq]
            exact hparts.1
    show splitOnFirst closeDelim (c :: (T' ++ closeDelim)) = some (c :: T', [])
    simp only [splitOnFirst, hguard, Bool.false_eq_true, if_false]
    rw [ih hparts.2]
    rfl

theorem matchFenceAt_wrap (tag T : Str) (htag : ∀ c ∈ tag, isWordChar c = true)
    (hT : isSubstr closeDelim T = false) : matchFenceAt (wrapFence tag T) = some T := by
  have h1 : strStartsWith fenceTicks (wrapFence tag T) = true := strStartsWith_append _ _
  simp only [matchFenceAt, h1, if_pos]
  have h2 : (wrapFence tag T).drop 3 = tag ++ '\n' :: (T ++ closeDelim) := rfl
  rw [h2, dropWhile_wordrun tag _ htag]
  show (splitOnFirst closeDelim (T ++ closeDelim)).map Prod.fst = some T
  rw [splitOnFirst_closeDelim_concat T hT]
  rfl

theorem reSearchFence_wrap (tag T : Str) (htag : ∀ c ∈ tag, isWordChar c = true)
    (hT : isSubstr closeDelim T = false) : reSearchFence (wrapFence tag T) = some T := by
  have hw : wrapFence tag T = '`' :: ('`' :: '`' :: (tag ++ '\n' :: (T ++ closeDelim))) := rfl
  rw [hw]
  simp only [reSearchFence]
  rw [← hw, matchFenceAt_wrap tag T htag hT]

theorem strip_wrapFence (tag T : Str) : strip (wrapFence tag T) = wrapFence tag T := by
  have shape : wrapFence tag T =
      '`' :: (('`' :: '`' :: (tag ++ '\n' :: (T ++ ('\n' :: '`' :: '`' :: [])))) ++ ['`']) := by
    rw [wrapFence]
    simp [fenceTicks, closeDelim, List.append_assoc, List.cons_append]
  rw [shape]
  exact strip_keep '`' '`' _ (by decide) (by decide)

/- ---------- Claims ---------- -/

/-- C1: for every plan whose artifacts all appear in the planner's generation
order, are all found in the plan, and are all successfully processed, the
mapping returned by `coordinateGeneration` has exactly one entry per planned
artifact, keyed by exactly the planned filenames; a filename absent from the
plan has no entry, and no key is ever duplicated. -/
theorem c1_result_keyed_by_planned_filenames
    (S : Services) (plan : Plan) (rag : Str) (existing : Option (List (Str × Str)))
    (custom : List (Str × Str)) (heap heap₁ : SessionHeap) (ctx : GenerationContext)
    (order : List Str) (a : Str)
    (hnd : (plan.files.map FileInfo.filename).Nodup)
    (hb : buildGenerationContext S.getSymbols S.activePath S.indexTree plan rag existing heap =
      .ok (heap₁, ctx))
    (hord : S.planOrder ctx = .ok order)
    (hcover : ∀ fi ∈ plan.files, fi.filename ∈ order)
    (hfound : ∀ f ∈ order,
      (plan.files.find? (fun fi => decide (fi.filename = f))).isSome = true)
    (hsucc : ∀ p, ∃ s, S.outcome p = .produced s) :
    (a ∈ akeys (coordinateGeneration S plan rag existing custom heap) ↔
       a ∈ plan.files.map FileInfo.filename)
    ∧ (akeys (coordinateGeneration S plan rag existing custom heap)).length = plan.files.length
    ∧ (akeys (coordinateGeneration S plan rag existing custom heap)).Nodup := by
  have hne : ∀ p, S.outcome p ≠ .raise := by
    intro p h
    obtain ⟨s, hs⟩ := hsucc p
    rw [h] at hs
    exact GenOutcome.noConfusion hs
  obtain ⟨t, ht⟩ := genLoop_ok S custom plan hne order [] heap₁ ctx
  obtain ⟨d, h2, c2⟩ := t
  have hcoord : coordinateGeneration S plan rag existing custom heap = d := by
    simp only [coordinateGeneration, coordinateRun, hb, hord, ht]
  have hkeys := genLoop_ok_keys S custom plan order [] heap₁ ctx d h2 c2 ht
  have hmemiff : ∀ x, x ∈ akeys d ↔ x ∈ plan.files.map FileInfo.filename := by
    intro x
    rw [hkeys x]
    simp only [akeys_nil, List.not_mem_nil, false_or]
    constructor
    · rintro ⟨hx, hfind⟩
      rw [List.find?_isSome] at hfind
      obtain ⟨fi, hfi, hp⟩ := hfind
      simp only [decide_eq_true_eq] at hp
      exact List.mem_map.2 ⟨fi, hfi, hp⟩
    · intro hx
      obtain ⟨fi, hfi, hfn⟩ := List.mem_map.1 hx
      have hxo : x ∈ order := by rw [← hfn]; exact hcover fi hfi
      exact ⟨hxo, hfound x hxo⟩
  have hndk : (akeys d).Nodup :=
    genLoop_ok_nodup S custom plan order [] heap₁ ctx d h2 c2 ht (by rw [akeys_nil]; exact List.nodup_nil)
  have hperm : (akeys d).Perm (plan.files.map FileInfo.filename) :=
    (List.perm_ext_iff_of_nodup hndk hnd).2 hmemiff
  refine ⟨?_, ?_, ?_⟩
  · rw [hcoord]; exact hmemiff a
  · rw [hcoord, hperm.length_eq, List.length_map]
  · rw [hcoord]; exact hndk

/-- C1 witness: a concrete successful one-artifact run. -/
theorem c1_result_keyed_by_planned_filenames_witness :
    (("a.py".toList) ∈ akeys (coordinateGeneration sOneFile planOneFile [] none [] []) ↔
       ("a.py".toList) ∈ planOneFile.files.map FileInfo.filename)
    ∧ (akeys (coordinateGeneration sOneFile planOneFile [] none [] [])).length =
        planOneFile.files.length
    ∧ (akeys (coordinateGeneration sOneFile planOneFile [] none [] [])).Nodup :=
  c1_result_keyed_by_planned_filenames sOneFile planOneFile [] none [] [] [w1sess] w1ctx
    [("a.py".toList)] ("a.py".toList) (by decide) rfl rfl (by decide) (by decide)
    (fun _ => ⟨"x".toList, rfl⟩)

/-- C2 counterexample: on a symbol-extraction failure the returned context is
the original value, but the session record it references has already been
mutated in place (status completed, code stored), so the state is *not*
unchanged as the claim requires. -/
theorem c2_counterexample :
    (updateSessionContext (fun _ _ => none) c2heap c2ctx
        [(("a.py".toList), ("x".toList))]).2 = c2ctx
    ∧ (updateSessionContext (fun _ _ => none) c2heap c2ctx
        [(("a.py".toList), ("x".toList))]).1 =
        [[(("a.py".toList),
           ⟨"p".toList, completedStatus, [], some ("x".toList)⟩)]]
    ∧ (updateSessionContext (fun _ _ => none) c2heap c2ctx
        [(("a.py".toList), ("x".toList))]).1 ≠ c2heap := by
  exact ⟨by decide, by decide, by decide⟩

/-- C2 (amended): if symbol extraction fails inside `updateSessionContext`, the
call swallows the failure and returns the original context value with its
project index untouched; the only difference from the pre-call state is that
the session record was already marked completed in place before the failure.
A failure before that mutation (empty input mapping) leaves heap and context
both unchanged. -/
theorem c2_failure_returns_original_context
    (gs : Str → Str → Option (List (Str × Str))) (heap : SessionHeap)
    (ctx : GenerationContext) (f code : Str) (rest : List (Str × Str))
    (hpy : strEndsWith pyExt f = true)
    (hgs : gs code (modulePathOf f) = none) :
    updateSessionContext gs heap ctx ((f, code) :: rest) =
      (markSessionCompleted heap ctx.sessionRef f code, ctx)
    ∧ updateSessionContext gs heap ctx [] = (heap, ctx) :=
  ⟨updateSessionContext_py_fail gs heap ctx f code rest hpy hgs, rfl⟩

/-- C2 witness for the amended statement. -/
theorem c2_failure_returns_original_context_witness :
    updateSessionContext (fun _ _ => none) c2heap c2ctx
        [(("a.py".toList), ("x".toList))] =
      (markSessionCompleted c2heap c2ctx.sessionRef ("a.py".toList) ("x".toList), c2ctx)
    ∧ updateSessionContext (fun _ _ => none) c2heap c2ctx [] = (c2heap, c2ctx) :=
  c2_failure_returns_original_context (fun _ _ => none) c2heap c2ctx
    ("a.py".toList) ("x".toList) [] (by decide) rfl

/-- C3: after a successful context update for a `.py` artifact, every symbol
present in the project index before the call is still mapped in the returned
context's index; its mapping is unchanged unless the new content redefines that
exact symbol name, in which case the extracted mapping wins (last write wins);
for an artifact whose extension is not source code the index is unchanged. -/
theorem c3_index_monotonicity
    (gs : Str → Str → Option (List (Str × Str))) (heap : SessionHeap)
    (ctx : GenerationContext) (f code : Str) (syms : List (Str × Str))
    (s s' v g code' : Str)
    (hpy : strEndsWith pyExt f = true)
    (hgs : gs code (modulePathOf f) = some syms)
    (hnd : (akeys syms).Nodup)
    (hs : (alookup ctx.project_index s).isSome = true)
    (hv : alookup syms s' = some v)
    (hg : strEndsWith pyExt g = false) :
    (alookup (updateSessionContext gs heap ctx [(f, code)]).2.project_index s).isSome = true
    ∧ (alookup syms s = none →
        alookup (updateSessionContext gs heap ctx [(f, code)]).2.project_index s =
          alookup ctx.project_index s)
    ∧ alookup (updateSessionContext gs heap ctx [(f, code)]).2.project_index s' = some v
    ∧ (updateSessionContext gs heap ctx [(g, code')]).2.project_index = ctx.project_index := by
  rw [updateSessionContext_py_ok gs heap ctx f code [] syms hpy hgs,
    updateSessionContext_not_py gs heap ctx g code' [] hg]
  refine ⟨?_, ?_, ?_, rfl⟩
  · rw [alookup_isSome_iff_mem] at hs ⊢
    exact (mem_akeys_aupdate syms ctx.project_index s).2 (Or.inl hs)
  · intro hnone
    exact alookup_aupdate_notin syms ctx.project_index s ((alookup_eq_none_iff _ _).1 hnone)
  · exact alookup_aupdate_of_lookup syms ctx.project_index s' v hnd hv

/-- C3 witness: a concrete update that preserves `Old` and adds `New`. -/
theorem c3_index_monotonicity_witness :
    (alookup (updateSessionContext (fun _ _ => some [(("New".toList), ("a".toList))])
        [[]] c3ctx [(("a.py".toList), ("c".toList))]).2.project_index
        ("Old".toList)).isSome = true
    ∧ (alookup [(("New".toList), ("a".toList))] ("Old".toList) = none →
        alookup (updateSessionContext (fun _ _ => some [(("New".toList), ("a".toList))])
          [[]] c3ctx [(("a.py".toList), ("c".toList))]).2.project_index ("Old".toList) =
          alookup c3ctx.project_index ("Old".toList))
    ∧ alookup (updateSessionContext (fun _ _ => some [(("New".toList), ("a".toList))])
        [[]] c3ctx [(("a.py".toList), ("c".toList))]).2.project_index ("New".toList) =
        some ("a".toList)
    ∧ (updateSessionContext (fun _ _ => some [(("New".toList), ("a".toList))])
        [[]] c3ctx [(("b.gd".toList), ("y".toList))]).2.project_index =
        c3ctx.project_index :=
  c3_index_monotonicity (fun _ _ => some [(("New".toList), ("a".toList))]) [[]] c3ctx
    ("a.py".toList) ("c".toList) [(("New".toList), ("a".toList))]
    ("Old".toList) ("New".toList) ("a".toList) ("b.gd".toList) ("y".toList)
    (by decide) rfl (by decide) (by decide) (by decide) (by decide)

/-- C4 counterexample: for a text already containing a closing fence delimiter,
wrapping in a fence and cleaning does *not* return the text trimmed — the lazy
regex body stops at the first closing delimiter inside the text. -/
theorem c4_counterexample :
    robustCleanLlmOutput (wrapFence ("py".toList) ("a\n```\nb".toList)) = ("a".toList)
    ∧ robustCleanLlmOutput (wrapFence ("py".toList) ("a\n```\nb".toList)) ≠
        strip ("a\n```\nb".toList) := by
  exact ⟨by decide, by decide⟩

/-- C4 (amended): for every text T that does not contain a closing fence
delimiter (the substring of a newline followed by three backticks), wrapping T
in a fenced block — with any word-character language tag, or none — and
cleaning it returns T trimmed, independently of the tag. -/
theorem c4_fence_roundtrip (T tag : Str)
    (htag : ∀ c ∈ tag, isWordChar c = true)
    (hT : isSubstr closeDelim T = false) :
    robustCleanLlmOutput (wrapFence tag T) = strip T := by
  simp only [robustCleanLlmOutput]
  rw [strip_wrapFence, reSearchFence_wrap tag T htag hT]

/-- C4 witness: round-trip of a concrete text through a `py`-tagged fence. -/
theorem c4_fence_roundtrip_witness :
    robustCleanLlmOutput (wrapFence ("py".toList) (" hello world ".toList)) =
      strip (" hello world ".toList) :=
  c4_fence_roundtrip (" hello world ".toList) ("py".toList) (by decide) (by decide)

/-- C5 counterexample: in a concrete run where `a.py` fails (no content
produced, session status still "planned" — never completed) and `b.py` is
processed next, the view passed to `b.py`'s strategy nevertheless contains an
entry for `a.py` (the failure placeholder), so the view is not "exactly the
artifacts completed earlier". -/
theorem c5_counterexample :
    (genLoop c5services [] c5plan [("a.py".toList), ("b.py".toList)] [] c5heap c5ctx).1 =
      [(("a.py".toList), []),
       (("b.py".toList), [(("a.py".toList), errPlaceholder ("a.py".toList))])]
    ∧ alookup ((finalHeapOf (genLoop c5services [] c5plan
          [("a.py".toList), ("b.py".toList)] [] c5heap c5ctx)).headD [])
        ("a.py".toList) = some ⟨"alpha".toList, plannedStatus, [], none⟩ := by
  exact ⟨by decide, by decide⟩

/-- C5 (amended): for every artifact f processed by the orchestration loop, the
"other generated files" view passed to its strategy is the output dict
accumulated so far with f erased: it contains exactly the artifacts attempted
earlier in the run (each with its produced content or failure placeholder),
and never an entry for f itself. -/
theorem c5_other_files_view (S : Services) (custom : List (Str × Str)) (plan : Plan)
    (o₁ o₂ : List Str) (f : Str) (fi : FileInfo) (heap : SessionHeap)
    (ctx : GenerationContext) (acc₁ : List (Str × Str)) (h₁ : SessionHeap)
    (c₁ : GenerationContext) (g : Str)
    (hfind : plan.files.find? (fun fi => decide (fi.filename = f)) = some fi)
    (hpre : (genLoop S custom plan o₁ [] heap ctx).2 = .ok (acc₁, h₁, c₁)) :
    (f, aerase acc₁ f) ∈ (genLoop S custom plan (o₁ ++ f :: o₂) [] heap ctx).1
    ∧ f ∉ akeys (aerase acc₁ f)
    ∧ (g ∈ akeys (aerase acc₁ f) ↔
        g ∈ o₁ ∧ (plan.files.find? (fun fi => decide (fi.filename = g))).isSome = true ∧
          g ≠ f) := by
  have happ := genLoop_append_ok S custom plan o₁ (f :: o₂) [] heap ctx (acc₁, h₁, c₁) hpre
  obtain ⟨tl, htl⟩ := genLoop_cons_found_trace S custom plan f o₂ acc₁ h₁ c₁ fi hfind
  have hkeys := genLoop_ok_keys S custom plan o₁ [] heap ctx acc₁ h₁ c₁ hpre
  refine ⟨?_, ?_, ?_⟩
  · have htrace : (genLoop S custom plan (o₁ ++ f :: o₂) [] heap ctx).1 =
        (genLoop S custom plan o₁ [] heap ctx).1 ++
          (genLoop S custom plan (f :: o₂) acc₁ h₁ c₁).1 := by
      rw [happ]
    rw [htrace, htl]
    exact List.mem_append.2 (Or.inr (List.mem_cons_self _ _))
  · rw [mem_akeys_aerase]
    rintro ⟨_, hne⟩
    exact hne rfl
  · rw [mem_akeys_aerase]
    rw [hkeys g]
    simp only [akeys_nil, List.not_mem_nil, false_or]
    tauto

/-- C5 witness: first artifact of a one-file run sees an empty view. -/
theorem c5_other_files_view_witness :
    (("a.py".toList), aerase ([] : List (Str × Str)) ("a.py".toList)) ∈
      (genLoop sOneFile [] planOneFile ([] ++ ("a.py".toList) :: []) [] [w1sess] w1ctx).1
    ∧ ("a.py".toList) ∉ akeys (aerase ([] : List (Str × Str)) ("a.py".toList))
    ∧ (("b.py".toList) ∈ akeys (aerase ([] : List (Str × Str)) ("a.py".toList)) ↔
        ("b.py".toList) ∈ ([] : List Str) ∧
          (planOneFile.files.find? (fun fi => decide (fi.filename = ("b.py".toList)))).isSome =
            true ∧ ("b.py".toList) ≠ ("a.py".toList)) :=
  c5_other_files_view sOneFile [] planOneFile [] [] ("a.py".toList)
    ⟨"a.py".toList, "data".toList⟩ [w1sess] w1ctx [] [w1sess] w1ctx ("b.py".toList)
    (by decide) rfl

/-- C6: any exception escaping the orchestration loop itself (the body of the
`try`, i.e. `coordinateRun` producing an error) makes `coordinateGeneration`
abort the whole run and return an empty result mapping. -/
theorem c6_escaped_exception_empty_result (S : Services) (plan : Plan) (rag : Str)
    (existing : Option (List (Str × Str))) (custom : List (Str × Str))
    (heap : SessionHeap) (e : Unit)
    (h : coordinateRun S plan rag existing custom heap = .error e) :
    coordinateGeneration S plan rag existing custom heap = [] := by
  simp only [coordinateGeneration, h]

/-- C6 witness: a run whose dependency planner raises yields the empty mapping. -/
theorem c6_escaped_exception_empty_result_witness :
    coordinateGeneration sPlanFails planOneFile [] none [] [] = [] :=
  c6_escaped_exception_empty_result sPlanFails planOneFile [] none [] [] () rfl

/-- C7: for an artifact whose filename has the `.tscn` extension, the strategy
makes no model call — its result does not depend on the model oracle, the
custom templates, the context or the other-files view, i.e. it is a function
of the filename and purpose alone (given the interpreter's string hash) — and
it returns the deterministic scene template, whose body references the
companion script path obtained by substituting `.gd` for `.tscn` behind the
stable `res://` path prefix. -/
theorem c7_tscn_template (pyHash : Str → Int) (o o' : Prompt → GenOutcome)
    (custom custom' : List (Str × Str)) (fi : FileInfo) (ctx ctx' : GenerationContext)
    (others others' : List (Str × Str))
    (hext : pySuffix fi.filename = tscnExt) :
    generateSingleFile pyHash o custom fi ctx others =
      .ok (some (createTscnContent pyHash (extractNodeTypeFromPurpose fi.purpose)
        (replaceAll tscnExt gdExt fi.filename)))
    ∧ generateSingleFile pyHash o custom fi ctx others =
        generateSingleFile pyHash o' custom' fi ctx' others'
    ∧ ∃ pre post, createTscnContent pyHash (extractNodeTypeFromPurpose fi.purpose)
        (replaceAll tscnExt gdExt fi.filename) =
        pre ++ (("res://".toList) ++ replaceAll tscnExt gdExt fi.filename) ++ post := by
  refine ⟨generateSingleFile_tscn pyHash o custom fi ctx others hext,
    (generateSingleFile_tscn pyHash o custom fi ctx others hext).trans
      (generateSingleFile_tscn pyHash o' custom' fi ctx' others' hext).symm, ?_⟩
  refine ⟨("[gd_scene load_steps=2 format=3 uid=\"uid://b".toList)
      ++ natDecimal ((pyHash (extractNodeTypeFromPurpose fi.purpose ++
          replaceAll tscnExt gdExt fi.filename)).natAbs % 10 ^ 10)
      ++ ("\"]\n\n[ext_resource type=\"Script\" path=\"".toList),
    ("\" id=\"1_".toList)
      ++ (("uid://b".toList) ++ natDecimal
          ((pyHash (replaceAll tscnExt gdExt fi.filename)).natAbs % 10 ^ 10))
      ++ ("\"]\n\n[node name=\"".toList)
      ++ capitalizePy (pyStem (replaceAll tscnExt gdExt fi.filename))
      ++ ("\" type=\"".toList) ++ extractNodeTypeFromPurpose fi.purpose
      ++ ("\"]\nscript = ExtResource(\"1_".toList)
      ++ (("uid://b".toList) ++ natDecimal
          ((pyHash (replaceAll tscnExt gdExt fi.filename)).natAbs % 10 ^ 10))
      ++ ("\")\n".toList), ?_⟩
  have hsplit : ("\"]\n\n[ext_resource type=\"Script\" path=\"res://".toList : Str) =
      ("\"]\n\n[ext_resource type=\"Script\" path=\"".toList) ++ ("res://".toList) := by
    decide
  simp only [createTscnContent, hsplit]
  simp only [List.append_assoc]

/-- C7 witness: `player.tscn` with purpose "Extends CharacterBody2D" derives
companion script `player.gd` and node type `CharacterBody2D`, with the result
independent of two different model oracles. -/
theorem c7_tscn_template_witness :
    (pySuffix ("player.tscn".toList) = tscnExt
      ∧ replaceAll tscnExt gdExt ("player.tscn".toList) = ("player.gd".toList)
      ∧ extractNodeTypeFromPurpose ("Extends CharacterBody2D".toList) =
          ("CharacterBody2D".toList))
    ∧ (generateSingleFile (fun _ => 0) (fun _ => .noModel) []
        ⟨"player.tscn".toList, "Extends CharacterBody2D".toList⟩ w1ctx [] =
        .ok (some (createTscnContent (fun _ => 0)
          (extractNodeTypeFromPurpose ("Extends CharacterBody2D".toList))
          (replaceAll tscnExt gdExt ("player.tscn".toList))))
      ∧ generateSingleFile (fun _ => 0) (fun _ => .noModel) []
          ⟨"player.tscn".toList, "Extends CharacterBody2D".toList⟩ w1ctx [] =
          generateSingleFile (fun _ => 0) (fun _ => .produced ("y".toList)) []
            ⟨"player.tscn".toList, "Extends CharacterBody2D".toList⟩ c5ctx []
      ∧ ∃ pre post, createTscnContent (fun _ => 0)
          (extractNodeTypeFromPurpose ("Extends CharacterBody2D".toList))
          (replaceAll tscnExt gdExt ("player.tscn".toList)) =
          pre ++ (("res://".toList) ++ replaceAll tscnExt gdExt ("player.tscn".toList)) ++ post) :=
  ⟨by decide,
   c7_tscn_template (fun _ => 0) (fun _ => .noModel) (fun _ => .produced ("y".toList)) [] []
     ⟨"player.tscn".toList, "Extends CharacterBody2D".toList⟩ w1ctx c5ctx [] [] (by decide)⟩

/-- C8: `buildGenerationContext` allocates exactly one session record (the heap
grows by exactly one, and the context references the new record); folding any
sequence of `updateSessionContext` calls over the built context never changes
the referenced record identity and never allocates a new record. -/
theorem c8_session_record_identity (gs : Str → Str → Option (List (Str × Str)))
    (ap : Bool) (it : Option (List (Str × Str))) (plan : Plan) (rag : Str)
    (ex : Option (List (Str × Str))) (heap heap₁ : SessionHeap)
    (ctx : GenerationContext) (ups : List (List (Str × Str)))
    (hb : buildGenerationContext gs ap it plan rag ex heap = .ok (heap₁, ctx)) :
    heap₁.length = heap.length + 1
    ∧ ctx.sessionRef = heap.length
    ∧ (applyUpdates gs (heap₁, ctx) ups).2.sessionRef = ctx.sessionRef
    ∧ (applyUpdates gs (heap₁, ctx) ups).1.length = heap₁.length := by
  obtain ⟨h1, h2⟩ := buildGenerationContext_ok gs ap it plan rag ex heap heap₁ ctx hb
  obtain ⟨h3, h4⟩ := applyUpdates_pres gs ups (heap₁, ctx)
  exact ⟨h1, h2, h3, h4⟩

/-- C8 witness: a concrete build followed by one update. -/
theorem c8_session_record_identity_witness :
    ([w1sess] : SessionHeap).length = ([] : SessionHeap).length + 1
    ∧ w1ctx.sessionRef = ([] : SessionHeap).length
    ∧ (applyUpdates (fun _ _ => some []) ([w1sess], w1ctx)
        [[(("a.py".toList), ("c".toList))]]).2.sessionRef = w1ctx.sessionRef
    ∧ (applyUpdates (fun _ _ => some []) ([w1sess], w1ctx)
        [[(("a.py".toList), ("c".toList))]]).1.length = ([w1sess] : SessionHeap).length :=
  c8_session_record_identity (fun _ _ => some []) false none planOneFile [] none []
    [w1sess] w1ctx [[(("a.py".toList), ("c".toList))]] rfl

/-- C9: the relevance score of a candidate text against the plan's keyword set
equals the spec formula — (fraction of the keyword set occurring as substrings
of the lowercased text) × min(1, wordCount/100) — it is 0 when the text or the
keyword set is empty, and it always lies in [0, 1]. -/
theorem c9_relevance_formula (text : Str) (keywords : Finset Str) :
    calculateTextRelevance text keywords = relevanceSpecFormula text keywords
    ∧ 0 ≤ calculateTextRelevance text keywords
    ∧ calculateTextRelevance text keywords ≤ 1
    ∧ ((text = [] ∨ keywords = ∅) → calculateTextRelevance text keywords = 0) := by
  by_cases h0 : text = [] ∨ keywords = ∅
  · unfold calculateTextRelevance relevanceSpecFormula
    rw [if_pos h0, if_pos h0]
    exact ⟨rfl, le_refl 0, zero_le_one, fun _ => rfl⟩
  · have hk : keywords ≠ ∅ := fun he => h0 (Or.inr he)
    have hkcard : 0 < keywords.card :=
      Finset.card_pos.2 (Finset.nonempty_iff_ne_empty.2 hk)
    have hkcast : (0 : ℚ) < (keywords.card : ℚ) := by exact_mod_cast hkcard
    have hbase0 : (0 : ℚ) ≤
        ((keywords.filter (fun k => isSubstr k (lowerStr text) = true)).card : ℚ) /
          (keywords.card : ℚ) :=
      div_nonneg (Nat.cast_nonneg _) (Nat.cast_nonneg _)
    have hbase1 : ((keywords.filter (fun k => isSubstr k (lowerStr text) = true)).card : ℚ) /
        (keywords.card : ℚ) ≤ 1 :=
      (div_le_one hkcast).2 (by exact_mod_cast Finset.card_filter_le _ _)
    by_cases hw : (wordsOf text).length = 0
    · have hformula : relevanceSpecFormula text keywords = 0 := by
        unfold relevanceSpecFormula
        rw [if_neg h0, hw]
        simp only [Nat.cast_zero, zero_div]
        rw [min_eq_right (zero_le_one), mul_zero]
      have hcode : calculateTextRelevance text keywords = 0 := by
        unfold calculateTextRelevance
        rw [if_neg h0, if_pos (Or.inl hw)]
      rw [hcode, hformula]
      exact ⟨rfl, le_refl 0, zero_le_one, fun _ => rfl⟩
    · have hguard : ¬((wordsOf text).length = 0 ∨ keywords.card = 0) := by
        push_neg
        exact ⟨hw, Nat.pos_iff_ne_zero.1 hkcard⟩
      have hcode : calculateTextRelevance text keywords =
          ((keywords.filter (fun k => isSubstr k (lowerStr text) = true)).card : ℚ) /
            (keywords.card : ℚ) * min 1 (((wordsOf text).length : ℚ) / 100) := by
        unfold calculateTextRelevance
        rw [if_neg h0, if_neg hguard]
      have hformula : relevanceSpecFormula text keywords =
          ((keywords.filter (fun k => isSubstr k (lowerStr text) = true)).card : ℚ) /
            (keywords.card : ℚ) * min 1 (((wordsOf text).length : ℚ) / 100) := by
        unfold relevanceSpecFormula
        rw [if_neg h0]
      have hmin0 : (0 : ℚ) ≤ min 1 (((wordsOf text).length : ℚ) / 100) :=
        le_min zero_le_one (div_nonneg (Nat.cast_nonneg _) (by norm_num))
      have hmin1 : min 1 (((wordsOf text).length : ℚ) / 100) ≤ 1 := min_le_left _ _
      refine ⟨hcode.trans hformula.symm, ?_, ?_, fun hx => absurd hx h0⟩
      · rw [hcode]
        exact mul_nonneg hbase0 hmin0
      · rw [hcode]
        exact mul_le_one₀ hbase1 hmin0 hmin1

/-- C9 witness: the theorem instantiated at a concrete text and keyword set. -/
theorem c9_relevance_formula_witness :
    calculateTextRelevance ("the project word".toList) {("project".toList)} =
      relevanceSpecFormula ("the project word".toList) {("project".toList)}
    ∧ 0 ≤ calculateTextRelevance ("the project word".toList) {("project".toList)}
    ∧ calculateTextRelevance ("the project word".toList) {("project".toList)} ≤ 1
    ∧ ((("the project word".toList) = [] ∨ ({("project".toList)} : Finset Str) = ∅) →
        calculateTextRelevance ("the project word".toList) {("project".toList)} = 0) :=
  c9_relevance_formula ("the project word".toList) {("project".toList)}

/-- C10: for a non-empty input mapping whose filename is not a key of the
session record, `updateSessionContext` changes no session state (the heap is
returned untouched), yet when the filename ends in `.py` it still merges the
extracted symbols into the returned context's project index. -/
theorem c10_absent_filename_updates_index (gs : Str → Str → Option (List (Str × Str)))
    (heap : SessionHeap) (ctx : GenerationContext) (f code : Str) (sess : Session)
    (syms : List (Str × Str))
    (hsess : heap.get? ctx.sessionRef = some sess)
    (hmem : alookup sess f = none)
    (hgs : gs code (modulePathOf f) = some syms) :
    (updateSessionContext gs heap ctx [(f, code)]).1 = heap
    ∧ (strEndsWith pyExt f = true →
        (updateSessionContext gs heap ctx [(f, code)]).2.project_index =
          aupdate ctx.project_index syms) := by
  have hmark : markSessionCompleted heap ctx.sessionRef f code = heap :=
    markSessionCompleted_not_mem heap ctx.sessionRef f code sess hsess hmem
  by_cases hpy : strEndsWith pyExt f = true
  · rw [updateSessionContext_py_ok gs heap ctx f code [] syms hpy hgs]
    exact ⟨hmark, fun _ => rfl⟩
  · rw [updateSessionContext_not_py gs heap ctx f code []
      (by simpa using hpy)]
    exact ⟨hmark, fun hx => absurd hx hpy⟩

/-- C10 witness: updating with `c.py`, absent from the session record. -/
theorem c10_absent_filename_updates_index_witness :
    (updateSessionContext (fun _ _ => some [(("S".toList), ("c".toList))]) c5heap c5ctx
        [(("c.py".toList), ("z".toList))]).1 = c5heap
    ∧ (strEndsWith pyExt ("c.py".toList) = true →
        (updateSessionContext (fun _ _ => some [(("S".toList), ("c".toList))]) c5heap c5ctx
          [(("c.py".toList), ("z".toList))]).2.project_index =
          aupdate c5ctx.project_index [(("S".toList), ("c".toList))]) :=
  c10_absent_filename_updates_index (fun _ _ => some [(("S".toList), ("c".toList))])
    c5heap c5ctx ("c.py".toList) ("z".toList)
    [(("a.py".toList), ⟨"alpha".toList, plannedStatus, [], none⟩),
     (("b.py".toList), ⟨"beta".toList, plannedStatus, [], none⟩)]
    [(("S".toList), ("c".toList))] rfl (by decide) rfl
